import Mathlib

/-!
# Verification of the search-insights extension core

Shallow embedding of `src/search-insights.ts` (the revision importing
`query-has-count-filter`): date-axis construction, commit resolution,
count-query construction, bulk-search retry, per-date/series aggregation,
view assembly (diff links), and view-provider registration.

External collaborators are modelled as parameters:
* `Date` is the epoch-milliseconds timeline (an `Int`);
* the date-fns function `sub` and the local-time renderer `formatISO`
  are passed in as functions (`sub : Date → Duration → Date`,
  `fmt : Date → String`), since the code treats them as opaque;
* remote GraphQL responses are inputs (one entry per aliased sub-query,
  represented by the parsed positional index of its `search{i}` field name).
-/

/-- JS `Date`, modelled by its epoch timestamp (`Date.prototype.getTime`). -/
abbrev Date := Int

/-- date-fns `Duration`: the `step` object of an insight configuration.
Absent fields default to 0, as in date-fns. -/
structure Duration where
  years : Int := 0
  months : Int := 0
  weeks : Int := 0
  days : Int := 0
  hours : Int := 0
  minutes : Int := 0
  seconds : Int := 0
deriving DecidableEq, Repr

/-- The one-day duration used as default step (`{ days: 1 }`). -/
def durOneDay : Duration := { days := 1 }

/-- The all-zero duration (an empty `step` object `{}`). -/
def durZero : Duration := {}

/-- Characters escaped by lodash `escapeRegExp`:
`\ ^ $ . * + ? ( ) [ ] { } |` (braces written via their code points). -/
def reRegExpChar (c : Char) : Bool :=
  c = '\\' || c = '^' || c = '$' || c = '.' || c = '*' || c = '+' || c = '?' ||
  c = '(' || c = ')' || c = '[' || c = ']' || c = Char.ofNat 123 ||
  c = Char.ofNat 125 || c = '|'

/-- lodash `escapeRegExp`: prefix every regexp special character with a
backslash. -/
def escapeRegExp (s : String) : String :=
  String.mk (s.data.foldr (fun c acc => if reRegExpChar c then '\\' :: c :: acc else c :: acc) [])

/-- Split a character list into space-separated tokens (`acc` is the
current token, reversed). -/
def tokenSplit : List Char → List Char → List (List Char)
  | [], acc => [acc.reverse]
  | c :: rest, acc =>
    if c = ' ' then acc.reverse :: tokenSplit rest [] else tokenSplit rest (c :: acc)

/-- Modelled from the spec: the helper `queryHasCountFilter` from
`./query-has-count-filter` is not among the sources; per the spec it is the
"dedicated query-inspection helper" detecting whether the series query
fragment "does not already specify" a result-count directive.  Modelled as:
some whitespace-separated token of the query is a `count:` directive. -/
def queryHasCountFilter (query : String) : Bool :=
  (tokenSplit query.data []).any fun token => "count:".data.isPrefixOf token

/-- `getQueryWithCountFilter` (search-insights.ts): append `count:99999`
unless the query already has a count filter. -/
def getQueryWithCountFilter (query : String) : String :=
  if queryHasCountFilter query then query else query ++ " count:99999"

/-- One entry of `insight.series`. -/
structure SeriesCfg where
  name : String
  query : String
  stroke : Option String := none
deriving DecidableEq, Repr

/-- The repository scope of an insight. -/
inductive Repositories where
  | current
  | all
  | list (patterns : List String)
deriving DecidableEq, Repr

/-- An insight configuration (`Insight` interface).  `step` is `none` when
the (runtime-optional) field is absent; `repositories` is `none` when
absent (the code destructures it with default `'current'`). -/
structure Insight where
  title : String
  subtitle : Option String := none
  description : Option String := none
  series : List SeriesCfg
  step : Option Duration := none
  repositories : Option Repositories := none
deriving DecidableEq, Repr

/-- `const step = insight.step || { days: 1 }`: a `Duration` object is
always truthy in JS, so the fallback applies exactly when the field is
absent (or null), never when it is a present all-zero object. -/
def effectiveStep (insight : Insight) : Duration :=
  insight.step.getD durOneDay

/-- Loop body of `getDaysToQuery`: `for (i = 0, d = now; i < 7; i++)
{ dates.unshift(d); d = sub(d, step) }`. -/
def getDaysToQueryGo (sub : Date → Duration → Date) (step : Duration) :
    Nat → Date → List Date → List Date
  | 0, _, dates => dates
  | n + 1, d, dates => getDaysToQueryGo sub step n (sub d step) (d :: dates)

/-- `getDaysToQuery`: the 7-point date axis ending at `now`
(= `startOfDay(new Date())`, passed in since the clock is external),
oldest first.  `sub` is the external date-fns subtraction. -/
def getDaysToQuery (sub : Date → Duration → Date) (step : Duration) (now : Date) : List Date :=
  getDaysToQueryGo sub step 7 now []

/-- A concrete instantiation of date-fns `sub` on a linear time axis
measured in seconds, used to instantiate theorems at concrete inputs.
Months and years get fixed lengths here; the real date-fns uses calendar
arithmetic for them, so concrete instances below only use durations whose
`months` and `years` are zero, where this model is exact (up to DST). -/
def linSub (d : Date) (s : Duration) : Date :=
  d - (s.seconds + 60 * (s.minutes + 60 * (s.hours + 24 * (s.days + 7 * s.weeks + 30 * s.months + 365 * s.years))))

/-- `path ? `^${escapeRegExp(path)}/` : undefined` — note that an empty
path string is falsy in JS. -/
def pathRegexpOf (path : Option String) : Option String :=
  match path with
  | some p => if p.isEmpty then none else some ("^" ++ escapeRegExp p ++ "/")
  | none => none

/-- The count-search query string of one search task:
``[`repo:^${escapeRegExp(repo)}$@${commit}`, pathRegexp && ` file:${pathRegexp}`,
getQueryWithCountFilter(query)].filter(Boolean).join(' ')``.
The path element itself starts with a space before being joined. -/
def buildTaskQuery (pathRegexp : Option String) (repo commit seriesQuery : String) : String :=
  String.intercalate " "
    (["repo:^" ++ escapeRegExp repo ++ "$@" ++ commit] ++
      (match pathRegexp with
       | some p => [" file:" ++ p]
       | none => []) ++
      [getQueryWithCountFilter seriesQuery])

/-- Following the spec's words (§6, declared bit-exact): count query
`repo:^<escaped-repo>$@<commit> [file:^<escaped-path>/ ]<series-query>
[count:99999]`, components separated by single spaces. -/
def countQuerySpecForm (repo commit : String) (path : Option String) (fragment : String) : String :=
  "repo:^" ++ escapeRegExp repo ++ "$@" ++ commit ++ " " ++
    (match path with
     | some p => "file:^" ++ escapeRegExp p ++ "/ "
     | none => "") ++
    fragment ++ (if queryHasCountFilter fragment then "" else " count:99999")

/-- A registered view provider (`sourcegraph.app.registerViewProvider`):
its id and its placement. -/
structure Registration where
  providerId : String
  location : String
deriving DecidableEq, Repr

/-- The per-insight body of the subscription in `activate`: which view
providers get registered for one `searchInsights.insight.*` settings entry.
`none` models a `null`/`false` entry (`if (!insight) return`).  The
`repositories` field is destructured with default `'current'`; an explicit
array registers directory, homepage and insights-page providers; `'all'`
matches neither branch and registers nothing. -/
def registrationsFor (id : String) (insight : Option Insight) : List Registration :=
  match insight with
  | none => []
  | some insight =>
    match insight.repositories.getD Repositories.current with
    | Repositories.current => [⟨id ++ ".directory", "directory"⟩]
    | Repositories.all => []
    | Repositories.list _ =>
      [⟨id ++ ".directory", "directory"⟩,
       ⟨id ++ ".homepage", "homepage"⟩,
       ⟨id ++ ".insightsPage", "insightsPage"⟩]

/-- date-fns `isAfter(date, dateToCompare)`: strictly later. -/
def isAfter (d dToCompare : Date) : Bool :=
  dToCompare < d

/-- One `CommitSearchResult.commit` of the commit-resolution response:
its oid and `commit.committer && new Date(commit.committer.date)` already
evaluated (`none` models a null committer). -/
structure CommitResult where
  oid : String
  committer : Option Date
deriving DecidableEq, Repr

/-- The `results.results` list of one commit-resolution sub-query. -/
structure CommitSearchResponse where
  results : List CommitResult
deriving DecidableEq, Repr

/-- The commit-resolution query strings, one per axis date:
``repo:^${escapeRegExp(repo)}$ type:commit before:${formatISO(date)} count:1``. -/
def commitQueriesFor (fmt : Date → String) (repo : String) (dates : List Date) : List String :=
  dates.map fun date =>
    "repo:^" ++ escapeRegExp repo ++ "$ type:commit before:" ++ fmt date ++ " count:1"

/-- One resolved `SearchCommit`: `commit` is `none` when the sub-query had
zero results (the repository had no history at that date). -/
structure SearchCommit where
  date : Date
  commit : Option String
deriving DecidableEq, Repr

/-- Error for a batched-response field out of positional order
(`Expected field ${name} to be at index ${i} of object keys`). -/
def fieldOrderError (i : Nat) : String :=
  "Expected field search" ++ toString i ++ " to be at index " ++ toString i ++ " of object keys"

/-- Error for a commit without committer metadata. -/
def missingCommitterError (oid : String) : String :=
  "Expected commit to have committer: `" ++ oid ++ "`"

/-- Error for a resolved commit dated after its query's boundary. -/
def commitAfterError (fmt : Date → String) (oid : String) (date commitDate : Date)
    (query : String) : String :=
  "Expected commit `" ++ oid ++ "` to be before " ++ fmt date ++ ", but was after: " ++
    fmt commitDate ++ ".\nSearch query: " ++ query

/-- The `Object.entries(commitResults).map(([name, search], index) => ...)`
body of `determineCommitsToSearch`, with `throw` as `Except.error` and the
field name `search{i}` represented by its parsed index `i`.  JS's `map`
evaluates left to right and the first `throw` aborts the whole call, which
the `Except` recursion reproduces. -/
def resolveCommitEntries (fmt : Date → String) (cqs : List String) (dates : List Date) :
    List (Nat × CommitSearchResponse) → Nat → Except String (List SearchCommit)
  | [], _ => Except.ok []
  | (i, search) :: rest, index =>
    if i ≠ index then
      Except.error (fieldOrderError i)
    else
      let date := dates.getD i 0
      match search.results with
      | [] =>
        (resolveCommitEntries fmt cqs dates rest (index + 1)).map
          (fun cs => ⟨date, none⟩ :: cs)
      | commit :: _ =>
        match commit.committer with
        | none => Except.error (missingCommitterError commit.oid)
        | some commitDate =>
          if isAfter commitDate date then
            Except.error (commitAfterError fmt commit.oid date commitDate (cqs.getD i ""))
          else
            (resolveCommitEntries fmt cqs dates rest (index + 1)).map
              (fun cs => ⟨date, some commit.oid⟩ :: cs)

/-- `determineCommitsToSearch(dates, repo)`: the remote answer to the
batched commit query arrives as `entries`. -/
def determineCommitsToSearch (fmt : Date → String) (repo : String) (dates : List Date)
    (entries : List (Nat × CommitSearchResponse)) : Except String (List SearchCommit) :=
  resolveCommitEntries fmt (commitQueriesFor fmt repo dates) dates entries 0

/-- A resolved present commit for one (repository, date) pair. -/
structure RepoCommit where
  date : Date
  commit : String
  repo : String
deriving DecidableEq, Repr

/-- `Promise.all(repos.map(async repo => (await determineCommitsToSearch(
dates, repo)).map(commit => ({repo, ...commit}))))`: resolve each
repository (`responses` is the remote's answer per repository); any
rejection rejects the whole computation. -/
def resolveAllRepos (fmt : Date → String) (dates : List Date)
    (responses : String → List (Nat × CommitSearchResponse)) :
    List String → Except String (List (String × SearchCommit))
  | [] => Except.ok []
  | repo :: rest => do
    let commits ← determineCommitsToSearch fmt repo dates (responses repo)
    let others ← resolveAllRepos fmt dates responses rest
    pure (commits.map (fun c => (repo, c)) ++ others)

/-- The `repoCommits` computation of `getInsightContent`: resolve per
repository, flatten, and drop absent commits
(`filter(commitData => commitData.commit !== null)`) so that no search
task is created for them. -/
def repoCommitsOf (fmt : Date → String) (dates : List Date) (repos : List String)
    (responses : String → List (Nat × CommitSearchResponse)) :
    Except String (List RepoCommit) :=
  (resolveAllRepos fmt dates responses repos).map fun perRepo =>
    perRepo.filterMap fun rc =>
      rc.2.commit.map fun oid => ⟨rc.2.date, oid, rc.1⟩

/-- One element of `searchQueries`: a count-search task. -/
structure SearchTask where
  name : String
  date : Date
  repo : String
  commit : String
  query : String
deriving DecidableEq, Repr

/-- `searchQueries`: one task per series × resolved present commit. -/
def searchQueriesFor (insight : Insight) (pathRegexp : Option String)
    (repoCommits : List RepoCommit) : List SearchTask :=
  insight.series.flatMap fun s =>
    repoCommits.map fun rc =>
      ⟨s.name, rc.date, rc.repo, rc.commit,
        buildTaskQuery pathRegexp rc.repo rc.commit s.query⟩

/-- One `InsightSeriesData` object: the date (epoch ms) plus one slot per
series name; `none` is `EMPTY_DATA_POINT_VALUE` (the `null` sentinel). -/
structure SeriesPoint where
  date : Date
  slots : List (String × Option Int)
deriving DecidableEq, Repr

/-- `Object.fromEntries(insight.series.map(series => [series.name,
EMPTY_DATA_POINT_VALUE]))`. -/
def initSlots (series : List SeriesCfg) : List (String × Option Int) :=
  series.map fun s => (s.name, none)

/-- The data-initialization loop: one `SeriesPoint` per axis date, every
series slot at the sentinel.  (In the source each `date` object is placed
at `dates.indexOf(date)`, its own position by JS reference equality.) -/
def initializeData (dates : List Date) (series : List SeriesCfg) : List SeriesPoint :=
  dates.map fun d => ⟨d, initSlots series⟩

/-- The merge-step slot write: `object[dataKey] = countForRepo ?? 0` when
the slot still holds the sentinel, `object[dataKey] += countForRepo ?? 0`
otherwise.  `count` is `result?.results.matchCount` (`none` when the result
or its match count is missing).  Series names are object keys, hence unique
in the source object; updating every matching entry coincides with the JS
single-key write. -/
def updateEntry (slots : List (String × Option Int)) (key : String) (count : Option Int) :
    List (String × Option Int) :=
  slots.map fun kv =>
    if kv.1 = key then
      (kv.1,
        match kv.2 with
        | none => some (count.getD 0)
        | some v => some (v + count.getD 0))
    else kv

/-- `Object.entries(rawSearchResults).map(([field, result]) => ...)`:
re-associate each `search{i}` response field with `searchQueries[index]`.
`raw` pairs the parsed index with the optional match count.  Out-of-range
indices cannot occur in a response echoing the request's aliases. -/
def demuxSearchResults (tasks : List SearchTask) (raw : List (Nat × Option Int)) :
    List (SearchTask × Option Int) :=
  raw.filterMap fun e => (tasks[e.1]?).map fun t => (t, e.2)

/-- The merge loop of `getInsightContent`: for each result, locate its
date's `SeriesPoint` via `dates.indexOf(date)` and update that series'
slot.  (A lookup miss cannot occur: every task date is an axis date.) -/
def mergeSearchResults (dates : List Date) (results : List (SearchTask × Option Int))
    (data : List SeriesPoint) : List SeriesPoint :=
  results.foldl
    (fun acc r =>
      let dataIndex := dates.indexOf r.1.date
      match acc[dataIndex]? with
      | none => acc
      | some pt => acc.set dataIndex ⟨pt.date, updateEntry pt.slots r.1.name r.2⟩)
    data

/-- Read one series slot of a data point (JS `object[dataKey]`). -/
def slotLookup (slots : List (String × Option Int)) (key : String) : Option (Option Int) :=
  (slots.find? fun kv => kv.1 == key).map fun kv => kv.2

/-- The repository filter of the drill-down query:
``repo:^(${repos.map(escapeRegExp).join('|')})$``. -/
def repoAltFilter (repos : List String) : String :=
  "repo:^(" ++ String.intercalate "|" (repos.map escapeRegExp) ++ ")$"

/-- The drill-down diff query for one date:
``${repoFilter} type:diff after:${formatISO(sub(date, step))}
before:${formatISO(date)} ${series.query}``. -/
def diffQueryFor (fmt : Date → String) (sub : Date → Duration → Date) (repos : List String)
    (step : Duration) (seriesQuery : String) (date : Date) : String :=
  repoAltFilter repos ++ " type:diff after:" ++ fmt (sub date step) ++ " before:" ++
    fmt date ++ " " ++ seriesQuery

/-- A drill-down link: `new URL('/search', sourcegraphURL)` with the diff
query set as its `q` search parameter. -/
structure SearchURL where
  path : String
  q : String
deriving DecidableEq, Repr

/-- One entry of the chart payload's `series` array. -/
structure ViewSeries where
  dataKey : String
  name : String
  stroke : Option String
  linkURLs : List SearchURL
deriving DecidableEq, Repr

/-- `insight.series.map(series => ({dataKey, name, stroke, linkURLs}))`
from the returned view: one drill-down URL per axis date. -/
def viewSeriesOf (fmt : Date → String) (sub : Date → Duration → Date) (repos : List String)
    (step : Duration) (dates : List Date) (series : List SeriesCfg) : List ViewSeries :=
  series.map fun s =>
    ⟨s.name, s.name, s.stroke,
      dates.map fun date => ⟨"/search", diffQueryFor fmt sub repos step s.query date⟩⟩

/-- A GraphQL transport response: payload plus structured error list
(`errors` empty when the field is absent). -/
structure GraphQLResponse (α : Type) where
  data : α
  errors : List String
deriving DecidableEq, Repr

/-- `queryGraphQL`: raise the joined error messages if any structured
errors came back, otherwise return the data. -/
def queryGraphQL {α : Type} (resp : GraphQLResponse α) : Except String α :=
  if resp.errors.length > 0 then
    Except.error (String.intercalate "\n" resp.errors)
  else
    Except.ok resp.data

/-- rxjs `retry(n)` over `defer(() => ...)`: subscription `k` performs the
remote call afresh with outcome `attempt k`; on error, resubscribe while
retries remain, else propagate the last error. -/
def retrySub {α : Type} (attempt : Nat → Except String α) :
    Nat → Nat → Except String α
  | attemptIndex, 0 => attempt attemptIndex
  | attemptIndex, n + 1 =>
    match attempt attemptIndex with
    | Except.ok v => Except.ok v
    | Except.error _ => retrySub attempt (attemptIndex + 1) n

/-- The bulk count search `defer(...).pipe(retry(3)).toPromise()`:
attempt 0 plus up to 3 retries. -/
def bulkSearchWithRetry {α : Type} (attempt : Nat → Except String α) : Except String α :=
  retrySub attempt 0 3

/-! ## The date axis (getDaysToQuery) -/

theorem getDaysToQuery_eq (sub : Date → Duration → Date) (step : Duration) (now : Date) :
    getDaysToQuery sub step now =
      [sub (sub (sub (sub (sub (sub now step) step) step) step) step) step,
       sub (sub (sub (sub (sub now step) step) step) step) step,
       sub (sub (sub (sub now step) step) step) step,
       sub (sub (sub now step) step) step,
       sub (sub now step) step,
       sub now step,
       now] :=
  rfl

theorem axis_length (sub : Date → Duration → Date) (step : Duration) (now : Date) :
    (getDaysToQuery sub step now).length = 7 := by
  rw [getDaysToQuery_eq]; rfl

theorem axis_last (sub : Date → Duration → Date) (step : Duration) (now : Date) :
    (getDaysToQuery sub step now).getLast? = some now := by
  rw [getDaysToQuery_eq]; rfl

theorem axis_step_apart (sub : Date → Duration → Date) (step : Duration) (now : Date) :
    ∀ i, i + 1 < 7 →
      (getDaysToQuery sub step now)[i]? =
        ((getDaysToQuery sub step now)[i + 1]?).map (fun d => sub d step) := by
  intro i hi
  have hi6 : i < 6 := by omega
  interval_cases i <;> rw [getDaysToQuery_eq] <;> rfl

theorem axis_chain (sub : Date → Duration → Date) (step : Duration) (now : Date)
    (hpos : ∀ d, sub d step < d) :
    (getDaysToQuery sub step now).Chain' (· < ·) := by
  rw [getDaysToQuery_eq]
  simp only [List.chain'_cons, List.chain'_singleton, and_true]
  exact ⟨hpos _, hpos _, hpos _, hpos _, hpos _, hpos _⟩

/-- C2: for every configuration (any external `sub`, any `step`, `now` being
the start of the current day), the produced date axis has exactly 7 dates,
its last date is `now`, each date is the next date minus one `step`, and —
whenever stepping back one `step` moves strictly earlier in time, i.e. the
step is a strictly positive duration — the axis is strictly ascending. -/
theorem c2_axis_shape (sub : Date → Duration → Date) (step : Duration) (now : Date)
    (hpos : ∀ d, sub d step < d) :
    (getDaysToQuery sub step now).length = 7 ∧
    (getDaysToQuery sub step now).getLast? = some now ∧
    (∀ i, i + 1 < 7 →
      (getDaysToQuery sub step now)[i]? =
        ((getDaysToQuery sub step now)[i + 1]?).map (fun d => sub d step)) ∧
    (getDaysToQuery sub step now).Chain' (· < ·) :=
  ⟨axis_length sub step now, axis_last sub step now, axis_step_apart sub step now,
    axis_chain sub step now hpos⟩

/-- Witness for C2 at a concrete contracting step function. -/
theorem c2_axis_shape_witness :
    (getDaysToQuery (fun d _ => d - 1) durOneDay 0).length = 7 ∧
    (getDaysToQuery (fun d _ => d - 1) durOneDay 0).getLast? = some 0 ∧
    (∀ i, i + 1 < 7 →
      (getDaysToQuery (fun d _ => d - 1) durOneDay 0)[i]? =
        ((getDaysToQuery (fun d _ => d - 1) durOneDay 0)[i + 1]?).map (fun d => d - 1)) ∧
    (getDaysToQuery (fun d _ => d - 1) durOneDay 0).Chain' (· < ·) :=
  c2_axis_shape (fun d _ => d - 1) durOneDay 0 (fun d => sub_one_lt d)

/-! ## The step default (C8) -/

/-- An insight whose `step` is present but an all-zero duration. -/
def insightZeroStep : Insight :=
  { title := "t", series := [⟨"s", "q", none⟩], step := some durZero }

/-- C8 counterexample: a configuration whose `step` is a present zero
duration is NOT replaced by the 1-day default (`{} || {days: 1}` keeps `{}`
since objects are truthy), and the resulting axis repeats the same date 7
times — consecutive axis dates are not distinct. -/
theorem c8_counterexample :
    effectiveStep insightZeroStep = durZero ∧
    durZero ≠ durOneDay ∧
    getDaysToQuery linSub (effectiveStep insightZeroStep) 0 = [0, 0, 0, 0, 0, 0, 0] := by
  refine ⟨rfl, by decide, by decide⟩

/-- C8 (amended): the default step of 1 day is applied only when `step` is
unset (absent); then consecutive axis dates are distinct (strictly
ascending, shown on the linear time model).  A present zero-duration step
is used as-is (see the counterexample). -/
theorem c8_default_step_only_when_unset (insight : Insight) (h : insight.step = none)
    (now : Date) :
    effectiveStep insight = durOneDay ∧
    (getDaysToQuery linSub (effectiveStep insight) now).Chain' (· < ·) := by
  have hstep : effectiveStep insight = durOneDay := by
    simp [effectiveStep, h]
  refine ⟨hstep, ?_⟩
  rw [hstep]
  refine axis_chain linSub durOneDay now (fun d => ?_)
  have hday : linSub d durOneDay = d - 86400 := rfl
  rw [hday]
  exact Int.sub_lt_self d (by decide)

/-- An insight without a `step` field. -/
def insightNoStep : Insight :=
  { title := "t", series := [⟨"s", "q", none⟩] }

/-- Witness for the amended C8. -/
theorem c8_default_step_witness :
    effectiveStep insightNoStep = durOneDay ∧
    (getDaysToQuery linSub (effectiveStep insightNoStep) 0).Chain' (· < ·) :=
  c8_default_step_only_when_unset insightNoStep rfl 0

/-! ## Registration scopes (C9) -/

/-- C9: an insight whose `repositories` is `"all"` matches neither the
`'current'` branch nor the `Array.isArray` branch of `activate`, so no view
provider at all is registered for it. -/
theorem c9_all_scope_registers_nothing (id : String) (insight : Insight)
    (h : insight.repositories = some Repositories.all) :
    registrationsFor id (some insight) = [] := by
  simp [registrationsFor, h]

/-- An insight with `repositories: "all"`. -/
def insightAllRepos : Insight :=
  { title := "t", series := [⟨"s", "q", none⟩], repositories := some Repositories.all }

/-- Witness for C9. -/
theorem c9_all_scope_witness :
    registrationsFor "searchInsights.insight.x" (some insightAllRepos) = [] :=
  c9_all_scope_registers_nothing "searchInsights.insight.x" insightAllRepos rfl

/-! ## Bulk-search retry (C6) -/

/-- A remote that answers the first bulk-search attempt with a structured
GraphQL error for malformed query syntax — a non-retryable failure — and
answers the second attempt successfully. -/
def malformedQueryAttempts : Nat → Except String Nat
  | 0 => queryGraphQL { data := 0, errors := ["Invalid query syntax"] }
  | _ => Except.ok 42

/-- C6 counterexample: rxjs `retry(3)` does not discriminate failure kinds.
After a malformed-query (non-retryable) failure on the first attempt, the
pipeline retries anyway and succeeds, contradicting "retries are attempted
only for transient (timeout-class) failures". -/
theorem c6_counterexample :
    malformedQueryAttempts 0 = Except.error "Invalid query syntax" ∧
    bulkSearchWithRetry malformedQueryAttempts = Except.ok 42 := by
  constructor <;> rfl

/-- C6 (amended): the batched count search is retried at most 3 times: its
outcome depends only on the first four attempts, and when they all fail the
computation is reported as failed with the fourth attempt's error — no
further attempt is made.  Retries, however, are attempted for every
failure, transient or not (see the counterexample). -/
theorem c6_retry_bound {α : Type} (a b : Nat → Except String α)
    (hagree : ∀ k, k ≤ 3 → a k = b k)
    (hfail : ∀ k, k ≤ 3 → ∃ e, a k = Except.error e) :
    bulkSearchWithRetry a = a 3 ∧
    bulkSearchWithRetry a = bulkSearchWithRetry b ∧
    ∃ e, bulkSearchWithRetry a = Except.error e := by
  obtain ⟨e0, h0⟩ := hfail 0 (by omega)
  obtain ⟨e1, h1⟩ := hfail 1 (by omega)
  obtain ⟨e2, h2⟩ := hfail 2 (by omega)
  obtain ⟨e3, h3⟩ := hfail 3 (by omega)
  have hb0 : b 0 = Except.error e0 := by rw [← hagree 0 (by omega)]; exact h0
  have hb1 : b 1 = Except.error e1 := by rw [← hagree 1 (by omega)]; exact h1
  have hb2 : b 2 = Except.error e2 := by rw [← hagree 2 (by omega)]; exact h2
  have ha : bulkSearchWithRetry a = a 3 := by
    simp [bulkSearchWithRetry, retrySub, h0, h1, h2]
  have hb : bulkSearchWithRetry b = b 3 := by
    simp [bulkSearchWithRetry, retrySub, hb0, hb1, hb2]
  refine ⟨ha, ?_, e3, by rw [ha, h3]⟩
  rw [ha, hb, hagree 3 (by omega)]

/-- A remote that times out on every attempt. -/
def timeoutAttempts : Nat → Except String Nat :=
  fun _ => Except.error "timeout"

/-- Witness for the amended C6. -/
theorem c6_retry_bound_witness :
    bulkSearchWithRetry timeoutAttempts = timeoutAttempts 3 ∧
    bulkSearchWithRetry timeoutAttempts = bulkSearchWithRetry timeoutAttempts ∧
    ∃ e, bulkSearchWithRetry timeoutAttempts = Except.error e :=
  c6_retry_bound timeoutAttempts timeoutAttempts (fun _ _ => rfl)
    (fun _ _ => ⟨"timeout", rfl⟩)

/-! ## The count-search query string (C5) -/

/-- C5 counterexample: with a path, the constructed count query joins the
path element — which itself starts with a space — with a further space, so
the string carries a double space before `file:` and differs from the
spec's bit-exact single-space form. -/
theorem c5_counterexample :
    buildTaskQuery (pathRegexpOf (some "p")) "r" "c" "q" =
      "repo:^r$@c  file:^p/ q count:99999" ∧
    countQuerySpecForm "r" "c" (some "p") "q" =
      "repo:^r$@c file:^p/ q count:99999" ∧
    buildTaskQuery (pathRegexpOf (some "p")) "r" "c" "q" ≠
      countQuerySpecForm "r" "c" (some "p") "q" := by
  refine ⟨by decide, by decide, by decide⟩

/-- C5 (amended): the constructed count-search query is
`repo:^<escaped-repo>$@<commit>`, then — when a path is given — a space
followed by the path element ` file:^<escaped-path>/` (hence two spaces in
a row), then a space and the series fragment, with ` count:99999` appended
exactly when the fragment has no count directive yet (a fragment that
already specifies a count is passed through unchanged). -/
theorem c5_count_query_shape (repo commit fragment : String) (pathRegexp : Option String) :
    buildTaskQuery pathRegexp repo commit fragment =
      (match pathRegexp with
       | some p =>
         "repo:^" ++ escapeRegExp repo ++ "$@" ++ commit ++ " " ++ (" file:" ++ p) ++ " " ++
           getQueryWithCountFilter fragment
       | none =>
         "repo:^" ++ escapeRegExp repo ++ "$@" ++ commit ++ " " ++
           getQueryWithCountFilter fragment) ∧
    (queryHasCountFilter fragment = true → getQueryWithCountFilter fragment = fragment) ∧
    (queryHasCountFilter fragment = false →
      getQueryWithCountFilter fragment = fragment ++ " count:99999") := by
  refine ⟨?_, fun h => by simp [getQueryWithCountFilter, h],
    fun h => by simp [getQueryWithCountFilter, h]⟩
  cases pathRegexp <;> rfl

/-- Witness for the amended C5. -/
theorem c5_count_query_shape_witness :
    buildTaskQuery none "r" "c" "q" =
      "repo:^" ++ escapeRegExp "r" ++ "$@" ++ "c" ++ " " ++ getQueryWithCountFilter "q" ∧
    getQueryWithCountFilter "q" = "q" ++ " count:99999" :=
  ⟨(c5_count_query_shape "r" "c" "q" none).1,
    (c5_count_query_shape "r" "c" "q" none).2.2 (by decide)⟩

/-! ## Drill-down diff links (C7) -/

/-- C7: for every series and axis date, the drill-down link is a `/search`
URL whose query parameter is a `type:diff` query with `after` the rendering
of the date minus one `step`, `before` the rendering of the date, the
repository filter `repo:^(...)$` alternating all escaped queried
repositories, and the series' raw query fragment verbatim at the end. -/
theorem c7_diff_link (fmt : Date → String) (sub : Date → Duration → Date)
    (repos : List String) (step : Duration) (dates : List Date) (series : List SeriesCfg)
    (si : Nat) (s : SeriesCfg) (hs : series[si]? = some s)
    (j : Nat) (d : Date) (hd : dates[j]? = some d) :
    ∃ vs, (viewSeriesOf fmt sub repos step dates series)[si]? = some vs ∧
      vs.name = s.name ∧
      vs.linkURLs[j]? = some ⟨"/search",
        repoAltFilter repos ++ " type:diff after:" ++ fmt (sub d step) ++ " before:" ++
          fmt d ++ " " ++ s.query⟩ := by
  refine ⟨⟨s.name, s.name, s.stroke,
    dates.map fun date => ⟨"/search", diffQueryFor fmt sub repos step s.query date⟩⟩,
    ?_, rfl, ?_⟩
  · rw [viewSeriesOf, List.getElem?_map, hs]
    rfl
  · show (dates.map fun date =>
      (⟨"/search", diffQueryFor fmt sub repos step s.query date⟩ : SearchURL))[j]? = _
    rw [List.getElem?_map, hd]
    rfl

/-- Witness for C7. -/
theorem c7_diff_link_witness :
    ∃ vs, (viewSeriesOf (fun d => toString d) linSub ["r"] durOneDay [5]
        [⟨"n", "q", none⟩])[0]? = some vs ∧
      vs.name = "n" ∧
      vs.linkURLs[0]? = some ⟨"/search",
        repoAltFilter ["r"] ++ " type:diff after:" ++ toString (linSub 5 durOneDay) ++
          " before:" ++ toString (5 : Date) ++ " " ++ "q"⟩ :=
  c7_diff_link (fun d => toString d) linSub ["r"] durOneDay [5] [⟨"n", "q", none⟩]
    0 ⟨"n", "q", none⟩ rfl 0 5 rfl

/-! ## Aggregation lemmas (C3, C10) -/

theorem slotLookup_updateEntry_of_mem (slots : List (String × Option Int)) (key : String)
    (hmem : key ∈ slots.map Prod.fst) :
    ∃ old, slotLookup slots key = some old ∧
      slotLookup (updateEntry slots key none) key = some (some (old.getD 0)) := by
  induction slots with
  | nil => simp at hmem
  | cons kv rest ih =>
    by_cases hk : kv.1 = key
    · refine ⟨kv.2, ?_, ?_⟩
      · simp [slotLookup, List.find?_cons, hk]
      · cases hv : kv.2 <;>
          simp [updateEntry, slotLookup, List.find?_cons, hk, hv]
    · have hmem' : key ∈ rest.map Prod.fst := by
        rcases List.mem_map.mp hmem with ⟨x, hx, hxk⟩
        rcases List.mem_cons.mp hx with h | h
        · exact absurd (h ▸ hxk) hk
        · exact List.mem_map.mpr ⟨x, h, hxk⟩
      obtain ⟨old, h1, h2⟩ := ih hmem'
      refine ⟨old, ?_, ?_⟩
      · simpa [slotLookup, List.find?_cons, hk] using h1
      · simpa [updateEntry, slotLookup, List.find?_cons, hk] using h2

theorem slotLookup_two_updates (slots : List (String × Option Int)) (key : String)
    (a b : Int) (hmem : key ∈ slots.map Prod.fst)
    (hnone : ∀ kv ∈ slots, kv.1 = key → kv.2 = none) :
    slotLookup (updateEntry (updateEntry slots key (some a)) key (some b)) key =
      some (some (a + b)) := by
  induction slots with
  | nil => simp at hmem
  | cons kv rest ih =>
    by_cases hk : kv.1 = key
    · have hv : kv.2 = none := hnone kv (by simp) hk
      simp [updateEntry, slotLookup, List.find?_cons, hk, hv]
    · have hmem' : key ∈ rest.map Prod.fst := by
        rcases List.mem_map.mp hmem with ⟨x, hx, hxk⟩
        rcases List.mem_cons.mp hx with h | h
        · exact absurd (h ▸ hxk) hk
        · exact List.mem_map.mpr ⟨x, h, hxk⟩
      have hnone' : ∀ kv ∈ rest, kv.1 = key → kv.2 = none :=
        fun x hx => hnone x (by simp [hx])
      simpa [updateEntry, slotLookup, List.find?_cons, hk] using ih hmem' hnone'

theorem nodup_indexOf_getD (dates : List Date) (hnodup : dates.Nodup) (j : Nat)
    (hj : j < dates.length) :
    dates.indexOf (dates.getD j 0) = j := by
  rw [List.getD_eq_getElem dates 0 hj]
  exact List.indexOf_getElem hnodup j hj

theorem initializeData_getElem (dates : List Date) (series : List SeriesCfg) (j : Nat)
    (hj : j < dates.length) :
    (initializeData dates series)[j]? = some ⟨dates.getD j 0, initSlots series⟩ := by
  rw [initializeData, List.getElem?_map, List.getElem?_eq_getElem hj,
    List.getD_eq_getElem dates 0 hj]
  rfl

theorem merge_nil (dates : List Date) (data : List SeriesPoint) :
    mergeSearchResults dates [] data = data :=
  rfl

theorem merge_cons (dates : List Date) (r : SearchTask × Option Int)
    (rest : List (SearchTask × Option Int)) (data : List SeriesPoint) :
    mergeSearchResults dates (r :: rest) data =
      mergeSearchResults dates rest (mergeSearchResults dates [r] data) :=
  rfl

theorem mergeStep_eq (dates : List Date) (r : SearchTask × Option Int)
    (data : List SeriesPoint) :
    mergeSearchResults dates [r] data =
      match data[dates.indexOf r.1.date]? with
      | none => data
      | some pt =>
        data.set (dates.indexOf r.1.date) ⟨pt.date, updateEntry pt.slots r.1.name r.2⟩ :=
  rfl

theorem initSlots_map_fst (series : List SeriesCfg) :
    (initSlots series).map Prod.fst = series.map SeriesCfg.name := by
  simp [initSlots]

/-- C3: when two repositories contribute resolved results with counts `a`
and `b` for the same date/series, the aggregated value is `a + b`: the
first contribution replaces the `null` sentinel by its count, the second is
added to the existing value. -/
theorem c3_sum_across_repos (dates : List Date) (hnodup : dates.Nodup)
    (j : Nat) (hj : j < dates.length) (series : List SeriesCfg) (sname : String)
    (hmem : sname ∈ series.map SeriesCfg.name)
    (t1 t2 : SearchTask) (a b : Int)
    (hd1 : t1.date = dates.getD j 0) (hn1 : t1.name = sname)
    (hd2 : t2.date = dates.getD j 0) (hn2 : t2.name = sname) :
    ∃ pt, (mergeSearchResults dates [(t1, some a), (t2, some b)]
        (initializeData dates series))[j]? = some pt ∧
      slotLookup pt.slots sname = some (some (a + b)) := by
  have hi1 : dates.indexOf t1.date = j := by
    rw [hd1]; exact nodup_indexOf_getD dates hnodup j hj
  have hi2 : dates.indexOf t2.date = j := by
    rw [hd2]; exact nodup_indexOf_getD dates hnodup j hj
  have hlen0 : j < (initializeData dates series).length := by
    simpa [initializeData] using hj
  have h0 := initializeData_getElem dates series j hj
  have hstep1 :
      mergeSearchResults dates [(t1, some a)] (initializeData dates series) =
        (initializeData dates series).set j
          ⟨dates.getD j 0, updateEntry (initSlots series) t1.name (some a)⟩ := by
    rw [mergeStep_eq]
    simp only [hi1, h0]
  have hlen1 : j < ((initializeData dates series).set j
      ⟨dates.getD j 0, updateEntry (initSlots series) t1.name (some a)⟩).length := by
    simpa using hlen0
  have h1 : ((initializeData dates series).set j
      ⟨dates.getD j 0, updateEntry (initSlots series) t1.name (some a)⟩)[j]? =
        some ⟨dates.getD j 0, updateEntry (initSlots series) t1.name (some a)⟩ :=
    List.getElem?_set_eq_of_lt _ hlen0
  have hstep2 :
      mergeSearchResults dates [(t2, some b)]
          ((initializeData dates series).set j
            ⟨dates.getD j 0, updateEntry (initSlots series) t1.name (some a)⟩) =
        ((initializeData dates series).set j
            ⟨dates.getD j 0, updateEntry (initSlots series) t1.name (some a)⟩).set j
          ⟨dates.getD j 0,
            updateEntry (updateEntry (initSlots series) t1.name (some a)) t2.name (some b)⟩ := by
    rw [mergeStep_eq]
    simp only [hi2, h1]
  rw [merge_cons, hstep1, merge_cons, hstep2, merge_nil]
  refine ⟨⟨dates.getD j 0,
    updateEntry (updateEntry (initSlots series) t1.name (some a)) t2.name (some b)⟩, ?_, ?_⟩
  · exact List.getElem?_set_eq_of_lt _ (by simpa using hlen0)
  · show slotLookup
      (updateEntry (updateEntry (initSlots series) t1.name (some a)) t2.name (some b)) sname =
        some (some (a + b))
    rw [hn1, hn2]
    refine slotLookup_two_updates (initSlots series) sname a b ?_ ?_
    · rw [initSlots_map_fst]; exact hmem
    · intro kv hkv _
      rcases List.mem_map.mp hkv with ⟨s, _, hs⟩
      rw [← hs]

/-- Witness for C3. -/
theorem c3_sum_across_repos_witness :
    ∃ pt, (mergeSearchResults [10, 20]
        [(⟨"n", 20, "r1", "c1", "x"⟩, some 2), (⟨"n", 20, "r2", "c2", "x"⟩, some 5)]
        (initializeData [10, 20] [⟨"n", "q", none⟩]))[1]? = some pt ∧
      slotLookup pt.slots "n" = some (some (2 + 5)) :=
  c3_sum_across_repos [10, 20] (by decide) 1 (by decide) [⟨"n", "q", none⟩] "n"
    (by decide) ⟨"n", 20, "r1", "c1", "x"⟩ ⟨"n", 20, "r2", "c2", "x"⟩ 2 5
    rfl rfl rfl rfl

/-- C10: a search result lacking a match count (`result?.results.matchCount`
missing) is aggregated exactly like a zero count: the date/series slot
becomes `0` when it still holds the sentinel, or is increased by `0`
otherwise; the merge never fails and never leaves the slot at the
sentinel. -/
theorem c10_missing_count_as_zero (dates : List Date) (hnodup : dates.Nodup)
    (j : Nat) (hj : j < dates.length) (data : List SeriesPoint) (pt : SeriesPoint)
    (hdata : data[j]? = some pt) (t : SearchTask)
    (ht : t.date = dates.getD j 0) (hmem : t.name ∈ pt.slots.map Prod.fst) :
    ∃ old, slotLookup pt.slots t.name = some old ∧
      (mergeSearchResults dates [(t, none)] data)[j]? =
        some ⟨pt.date, updateEntry pt.slots t.name none⟩ ∧
      slotLookup (updateEntry pt.slots t.name none) t.name = some (some (old.getD 0)) := by
  obtain ⟨old, h1, h2⟩ := slotLookup_updateEntry_of_mem pt.slots t.name hmem
  have hi : dates.indexOf t.date = j := by
    rw [ht]; exact nodup_indexOf_getD dates hnodup j hj
  have hlen : j < data.length := by
    obtain ⟨hlt, -⟩ := List.getElem?_eq_some.mp hdata
    exact hlt
  refine ⟨old, h1, ?_, h2⟩
  rw [mergeStep_eq]
  simp only [hi, hdata]
  exact List.getElem?_set_eq_of_lt _ hlen

/-- Witness for C10. -/
theorem c10_missing_count_witness :
    ∃ old, slotLookup [("n", (none : Option Int))] "n" = some old ∧
      (mergeSearchResults [10, 20] [(⟨"n", 20, "r", "c", "x"⟩, none)]
          (initializeData [10, 20] [⟨"n", "q", none⟩]))[1]? =
        some ⟨20, updateEntry [("n", none)] "n" none⟩ ∧
      slotLookup (updateEntry [("n", none)] "n" none) "n" = some (some (Option.getD old 0)) :=
  c10_missing_count_as_zero [10, 20] (by decide) 1 (by decide)
    (initializeData [10, 20] [⟨"n", "q", none⟩]) ⟨20, [("n", none)]⟩ rfl
    ⟨"n", 20, "r", "c", "x"⟩ rfl (by decide)

/-! ## Commit resolution (C1, C4) -/

/-- A well-behaved commit-resolution response entry for position `k`: its
field name parses back to `k`, and it either has zero results (the
repository had no history at that date) or its first commit carries a
committer date not after the queried boundary `dates[k]`. -/
def goodEntry (dates : List Date) (k : Nat) (e : Nat × CommitSearchResponse) : Bool :=
  e.1 == k &&
    (match e.2.results with
     | [] => true
     | c :: _ =>
       match c.committer with
       | none => false
       | some cd => !(isAfter cd (dates.getD k 0)))

/-- The `SearchCommit` a well-behaved entry resolves to. -/
def resolvedOf (dates : List Date) (e : Nat × CommitSearchResponse) : SearchCommit :=
  ⟨dates.getD e.1 0,
    match e.2.results with
    | [] => none
    | c :: _ => some c.oid⟩

theorem resolve_cons_good (fmt : Date → String) (cqs : List String) (dates : List Date)
    (e : Nat × CommitSearchResponse) (rest : List (Nat × CommitSearchResponse)) (idx : Nat)
    (h : goodEntry dates idx e = true) :
    resolveCommitEntries fmt cqs dates (e :: rest) idx =
      (resolveCommitEntries fmt cqs dates rest (idx + 1)).map
        (fun cs => resolvedOf dates e :: cs) := by
  obtain ⟨i, search⟩ := e
  simp only [goodEntry, Bool.and_eq_true, beq_iff_eq] at h
  obtain ⟨hi, hcond⟩ := h
  subst hi
  cases hres : search.results with
  | nil =>
    simp [resolveCommitEntries, resolvedOf, hres]
  | cons c tail =>
    rw [hres] at hcond
    have hcond2 : (match c.committer with
        | none => false
        | some cd => !isAfter cd (dates.getD i 0)) = true := hcond
    cases hcomm : c.committer with
    | none =>
      rw [hcomm] at hcond2
      simp at hcond2
    | some cd =>
      rw [hcomm] at hcond2
      have hA : isAfter cd ((dates[i]?).getD 0) = false := by
        simpa using hcond2
      simp [resolveCommitEntries, resolvedOf, hres, hcomm, hA]

theorem resolve_append_good (fmt : Date → String) (cqs : List String) (dates : List Date)
    (p l : List (Nat × CommitSearchResponse)) (idx : Nat)
    (hgood : ∀ m (h : m < p.length), goodEntry dates (idx + m) (p.get ⟨m, h⟩) = true) :
    resolveCommitEntries fmt cqs dates (p ++ l) idx =
      (resolveCommitEntries fmt cqs dates l (idx + p.length)).map
        (fun cs => p.map (resolvedOf dates) ++ cs) := by
  induction p generalizing idx with
  | nil =>
    simp only [List.nil_append, List.map_nil, List.length_nil, Nat.add_zero]
    cases hr : resolveCommitEntries fmt cqs dates l idx <;> simp [Except.map]
  | cons e p' ih =>
    have he : goodEntry dates idx e = true := by
      have h0 := hgood 0 (by simp)
      simpa using h0
    rw [List.cons_append, resolve_cons_good fmt cqs dates e (p' ++ l) idx he]
    have hgood' : ∀ m (h : m < p'.length),
        goodEntry dates ((idx + 1) + m) (p'.get ⟨m, h⟩) = true := by
      intro m h
      have h2 : m + 1 < (e :: p').length := by simp; omega
      have h3 := hgood (m + 1) h2
      have harith : idx + (m + 1) = (idx + 1) + m := by omega
      rw [harith] at h3
      simpa using h3
    rw [ih (idx + 1) hgood']
    simp only [List.length_cons, List.map_cons]
    rw [show idx + (p'.length + 1) = idx + 1 + p'.length by omega]
    cases hr : resolveCommitEntries fmt cqs dates l (idx + 1 + p'.length) <;>
      simp [Except.map]

theorem resolve_all_good (fmt : Date → String) (cqs : List String) (dates : List Date)
    (entries : List (Nat × CommitSearchResponse))
    (hgood : ∀ m (h : m < entries.length), goodEntry dates m (entries.get ⟨m, h⟩) = true) :
    resolveCommitEntries fmt cqs dates entries 0 =
      Except.ok (entries.map (resolvedOf dates)) := by
  have h2 := resolve_append_good fmt cqs dates entries [] 0 (by simpa using hgood)
  rw [List.append_nil] at h2
  rw [h2]
  simp [resolveCommitEntries, Except.map]

theorem determine_all_good (fmt : Date → String) (repo : String) (dates : List Date)
    (entries : List (Nat × CommitSearchResponse))
    (hgood : ∀ m (h : m < entries.length), goodEntry dates m (entries.get ⟨m, h⟩) = true) :
    determineCommitsToSearch fmt repo dates entries =
      Except.ok (entries.map (resolvedOf dates)) :=
  resolve_all_good fmt (commitQueriesFor fmt repo dates) dates entries hgood

/-- C4: when a commit-resolution sub-query returns a commit whose committer
date is strictly after the query's boundary date, the whole resolution
fails with the error naming the offending commit oid and the search query;
no commit list is produced. -/
theorem c4_commit_after_boundary_fails (fmt : Date → String) (repo : String)
    (dates : List Date) (p rest : List (Nat × CommitSearchResponse))
    (resp : CommitSearchResponse) (commit : CommitResult) (tail : List CommitResult)
    (cd : Date)
    (hgood : ∀ m (h : m < p.length), goodEntry dates m (p.get ⟨m, h⟩) = true)
    (hres : resp.results = commit :: tail)
    (hcomm : commit.committer = some cd)
    (hafter : isAfter cd (dates.getD p.length 0) = true) :
    determineCommitsToSearch fmt repo dates (p ++ (p.length, resp) :: rest) =
      Except.error (commitAfterError fmt commit.oid (dates.getD p.length 0) cd
        ((commitQueriesFor fmt repo dates).getD p.length "")) := by
  have hafterElem : isAfter cd ((dates[p.length]?).getD 0) = true := by
    rw [← List.get?_eq_getElem?, ← List.getD_eq_getD_get?]
    exact hafter
  rw [determineCommitsToSearch,
    resolve_append_good fmt (commitQueriesFor fmt repo dates) dates p _ 0
      (by simpa using hgood)]
  simp only [Nat.zero_add]
  simp [resolveCommitEntries, hres, hcomm, hafterElem, Except.map]

/-- Witness for C4. -/
theorem c4_commit_after_boundary_witness :
    determineCommitsToSearch (fun d => toString d) "r" [100]
        ([] ++ (0, ⟨[⟨"badcommit", some 200⟩]⟩) :: []) =
      Except.error (commitAfterError (fun d => toString d) "badcommit"
        ([100].getD 0 0) 200 ((commitQueriesFor (fun d => toString d) "r" [100]).getD 0 "")) :=
  c4_commit_after_boundary_fails (fun d => toString d) "r" [100] [] []
    ⟨[⟨"badcommit", some 200⟩]⟩ ⟨"badcommit", some 200⟩ [] 200
    (fun m h => absurd h (Nat.not_lt_zero m)) rfl rfl (by decide)

/-- What `repoCommitsOf` produces for a single repository whose resolution
succeeded: the resolved commits with the absent ones dropped. -/
def singleRepoCommits (repo : String) (dates : List Date)
    (entries : List (Nat × CommitSearchResponse)) : List RepoCommit :=
  (entries.map (resolvedOf dates)).filterMap fun c =>
    c.commit.map fun oid => ⟨c.date, oid, repo⟩

theorem repoCommitsOf_single (fmt : Date → String) (repo : String) (dates : List Date)
    (entries : List (Nat × CommitSearchResponse))
    (hok : determineCommitsToSearch fmt repo dates entries =
      Except.ok (entries.map (resolvedOf dates))) :
    repoCommitsOf fmt dates [repo] (fun _ => entries) =
      Except.ok (singleRepoCommits repo dates entries) := by
  simp only [repoCommitsOf, resolveAllRepos, hok, singleRepoCommits,
    Bind.bind, Except.bind, Pure.pure, Except.pure, Except.map,
    List.append_nil, List.map_map, List.filterMap_map]
  rfl

theorem merge_untouched (dates : List Date) (results : List (SearchTask × Option Int))
    (j : Nat) (hno : ∀ r ∈ results, dates.indexOf r.1.date ≠ j) :
    ∀ data : List SeriesPoint, (mergeSearchResults dates results data)[j]? = data[j]? := by
  induction results with
  | nil => intro data; rfl
  | cons r rest ih =>
    intro data
    rw [merge_cons, ih (fun x hx => hno x (List.mem_cons_of_mem r hx)), mergeStep_eq]
    cases hval : data[dates.indexOf r.1.date]? with
    | none => rfl
    | some pt => exact List.getElem?_set_ne (hno r (List.mem_cons_self r rest))

theorem mem_demux (tasks : List SearchTask) (raw : List (Nat × Option Int))
    (r : SearchTask × Option Int) (h : r ∈ demuxSearchResults tasks raw) : r.1 ∈ tasks := by
  rcases List.mem_filterMap.mp h with ⟨e, _, heq⟩
  rcases Option.map_eq_some'.mp heq with ⟨t, hget, hrt⟩
  have hmem : t ∈ tasks := by
    rw [← List.get?_eq_getElem?] at hget
    exact List.get?_mem hget
  rw [← hrt]
  exact hmem

theorem nodup_getD_ne (dates : List Date) (hnodup : dates.Nodup) (m j : Nat)
    (hm : m < dates.length) (hj : j < dates.length) (hne : m ≠ j) :
    dates.getD m 0 ≠ dates.getD j 0 := by
  rw [List.getD_eq_getElem dates 0 hm, List.getD_eq_getElem dates 0 hj]
  intro heq
  exact hne (List.Nodup.getElem_inj_iff hnodup |>.mp heq)

theorem indexOf_ne_of_getD_ne (dates : List Date) (d : Date) (j : Nat)
    (hj : j < dates.length) (hne : d ≠ dates.getD j 0) :
    dates.indexOf d ≠ j := by
  intro he
  apply hne
  subst he
  have hlt : dates.indexOf d < dates.length := hj
  have hget := List.indexOf_get (a := d) (l := dates) hlt
  rw [List.get_eq_getElem] at hget
  rw [List.getD_eq_getElem dates 0 hj]
  exact hget.symm

theorem mem_searchQueries_date (insight : Insight) (pathR : Option String)
    (rcs : List RepoCommit) (task : SearchTask)
    (h : task ∈ searchQueriesFor insight pathR rcs) :
    ∃ rc ∈ rcs, task.date = rc.date := by
  rcases List.mem_flatMap.mp h with ⟨s, _, hmem2⟩
  rcases List.mem_map.mp hmem2 with ⟨rc, hrc, htask⟩
  refine ⟨rc, hrc, ?_⟩
  rw [← htask]

theorem mem_singleRepoCommits_date (repo : String) (dates : List Date)
    (entries : List (Nat × CommitSearchResponse))
    (hgood : ∀ m (hm : m < entries.length), goodEntry dates m (entries.get ⟨m, hm⟩) = true)
    (rc : RepoCommit) (h : rc ∈ singleRepoCommits repo dates entries) :
    ∃ n, ∃ hn : n < entries.length, rc.date = dates.getD n 0 ∧
      (entries.get ⟨n, hn⟩).2.results ≠ [] := by
  rcases List.mem_filterMap.mp h with ⟨c, hc, hmap⟩
  rcases List.mem_map.mp hc with ⟨e, he, hce⟩
  rcases List.mem_iff_getElem.mp he with ⟨n, hn, hen⟩
  have hgete : entries.get ⟨n, hn⟩ = e := by
    simpa [List.get_eq_getElem] using hen
  have hg := hgood n hn
  rw [hgete] at hg
  have he1 : e.1 = n := by
    simp only [goodEntry, Bool.and_eq_true, beq_iff_eq] at hg
    exact hg.1
  rcases Option.map_eq_some'.mp hmap with ⟨oid, hcommit, hrc⟩
  subst hce
  have hcommit2 : (match e.2.results with
      | [] => none
      | c :: _ => some c.oid) = some oid := hcommit
  cases hres : e.2.results with
  | nil =>
    rw [hres] at hcommit2
    simp at hcommit2
  | cons c0 t0 =>
    refine ⟨n, hn, ?_, ?_⟩
    · rw [← hrc]
      show (resolvedOf dates e).date = dates.getD n 0
      rw [resolvedOf]
      simp [he1]
    · rw [hgete, hres]
      simp

/-- C1: when a commit-resolution sub-query returns zero results for an axis
date (and every response entry is otherwise well-behaved), resolution
succeeds — the date resolves to an absent commit rather than an error — no
count-search task is created for that (repository, date) because absent
commits are filtered out, and, whatever the bulk-search response is, the
aggregated data keeps every series slot of that date at the `null`
sentinel instead of crediting a zero. -/
theorem c1_absent_commit_no_task_keeps_sentinel
    (fmt : Date → String) (repo : String) (dates : List Date) (hnodup : dates.Nodup)
    (entries : List (Nat × CommitSearchResponse))
    (hlen : entries.length = dates.length)
    (hgood : ∀ m (hm : m < entries.length), goodEntry dates m (entries.get ⟨m, hm⟩) = true)
    (j : Nat) (hj : entries[j]? = some (j, ⟨[]⟩))
    (insight : Insight) (pathR : Option String) (raw : List (Nat × Option Int)) :
    determineCommitsToSearch fmt repo dates entries =
      Except.ok (entries.map (resolvedOf dates)) ∧
    (entries.map (resolvedOf dates))[j]? = some ⟨dates.getD j 0, none⟩ ∧
    repoCommitsOf fmt dates [repo] (fun _ => entries) =
      Except.ok (singleRepoCommits repo dates entries) ∧
    ((searchQueriesFor insight pathR (singleRepoCommits repo dates entries)).all
      fun task => task.date != dates.getD j 0) = true ∧
    (mergeSearchResults dates
        (demuxSearchResults
          (searchQueriesFor insight pathR (singleRepoCommits repo dates entries)) raw)
        (initializeData dates insight.series))[j]? =
      some ⟨dates.getD j 0, initSlots insight.series⟩ := by
  obtain ⟨hjlt, hjget⟩ := List.getElem?_eq_some.mp hj
  have hjdates : j < dates.length := hlen ▸ hjlt
  have hok := determine_all_good fmt repo dates entries hgood
  have h2 : (entries.map (resolvedOf dates))[j]? = some ⟨dates.getD j 0, none⟩ := by
    rw [List.getElem?_map, hj]
    rfl
  have htasks : ∀ task ∈ searchQueriesFor insight pathR (singleRepoCommits repo dates entries),
      task.date ≠ dates.getD j 0 := by
    intro task htask
    rcases mem_searchQueries_date insight pathR _ task htask with ⟨rc, hrc, hdate⟩
    rcases mem_singleRepoCommits_date repo dates entries hgood rc hrc with
      ⟨n, hn, hrcdate, hnonempty⟩
    have hnj : n ≠ j := by
      intro hnjeq
      subst hnjeq
      have hgete : entries.get ⟨n, hn⟩ = (n, ⟨[]⟩) := by
        rw [List.get_eq_getElem]
        exact hjget
      exact hnonempty (by rw [hgete])
    rw [hdate, hrcdate]
    exact nodup_getD_ne dates hnodup n j (hlen ▸ hn) hjdates hnj
  have hall : ((searchQueriesFor insight pathR (singleRepoCommits repo dates entries)).all
      fun task => task.date != dates.getD j 0) = true := by
    rw [List.all_eq_true]
    intro task htask
    exact bne_iff_ne.mpr (htasks task htask)
  have hno : ∀ r ∈ demuxSearchResults
      (searchQueriesFor insight pathR (singleRepoCommits repo dates entries)) raw,
      dates.indexOf r.1.date ≠ j :=
    fun r hr => indexOf_ne_of_getD_ne dates r.1.date j hjdates
      (htasks r.1 (mem_demux _ _ r hr))
  have hmerge : (mergeSearchResults dates
      (demuxSearchResults
        (searchQueriesFor insight pathR (singleRepoCommits repo dates entries)) raw)
      (initializeData dates insight.series))[j]? =
        some ⟨dates.getD j 0, initSlots insight.series⟩ := by
    rw [merge_untouched dates _ j hno (initializeData dates insight.series)]
    exact initializeData_getElem dates insight.series j hjdates
  exact ⟨hok, h2, repoCommitsOf_single fmt repo dates entries hok, hall, hmerge⟩

/-- Commit-resolution response used by the C1 witness: a present commit for
the first date, zero results for the second. -/
def c1Entries : List (Nat × CommitSearchResponse) :=
  [(0, ⟨[⟨"c0", some 5⟩]⟩), (1, ⟨[]⟩)]

/-- Insight used by the C1 witness. -/
def c1Insight : Insight :=
  { title := "t", series := [⟨"s", "q", none⟩] }

/-- Witness for C1. -/
theorem c1_absent_commit_witness :
    determineCommitsToSearch (fun d => toString d) "r" [10, 20] c1Entries =
      Except.ok (c1Entries.map (resolvedOf [10, 20])) ∧
    (c1Entries.map (resolvedOf [10, 20]))[1]? = some ⟨[10, 20].getD 1 0, none⟩ ∧
    repoCommitsOf (fun d => toString d) [10, 20] ["r"] (fun _ => c1Entries) =
      Except.ok (singleRepoCommits "r" [10, 20] c1Entries) ∧
    ((searchQueriesFor c1Insight none (singleRepoCommits "r" [10, 20] c1Entries)).all
      fun task => task.date != [10, 20].getD 1 0) = true ∧
    (mergeSearchResults [10, 20]
        (demuxSearchResults
          (searchQueriesFor c1Insight none (singleRepoCommits "r" [10, 20] c1Entries))
          [(0, some 3)])
        (initializeData [10, 20] c1Insight.series))[1]? =
      some ⟨[10, 20].getD 1 0, initSlots c1Insight.series⟩ :=
  c1_absent_commit_no_task_keeps_sentinel (fun d => toString d) "r" [10, 20] (by decide)
    c1Entries rfl (by decide) 1 rfl c1Insight none [(0, some 3)]
